import Mathlib

/-!
Verification of the property-list component of netcdf-c
(`src/include/netcdf_proplist.h`).

The C code is shallowly embedded: `uintptr_t` values and pointers become
`Nat`, C strings become `List Char` (the characters before the terminating
nul), fallible functions return an `Int` status (the netcdf convention:
`>= 0` success, `< 0` failure), and the side effects of reclamation
(`free`, reclaim/copy callback invocations) are made observable as an
explicit effect trace.  A `NCproplist*` argument that may be NULL is
embedded as `Option NCproplist`; `none` is the NULL pointer, and an
`Option` result of `none` for an output parameter means the function
returned without storing through that pointer.

Memory modelling notes, stated once here:
  * `calloc` produces zeroed slots (`zeroProp`); `realloc` preserves the
    old slots.  The C contents of slots freshly obtained from `realloc`
    are indeterminate; they are modelled as zeroed.  No theorem below
    depends on the contents of such a slot except through fields the code
    itself leaves unwritten, and each such place is flagged in a comment.
  * Allocation success/failure is an input: functions that allocate take
    an `allocOk : Bool` oracle (the single `realloc` in `extendplist`),
    and `ncproplistclone` additionally takes a `malloc : Nat → Nat` oracle
    giving the addresses returned by its `malloc` calls.
  * Calling a NULL `typefcn` on an `NCP_COMPLEX` entry is undefined
    behavior in C (`ncproplistclear` asserts it is non-NULL); the model
    gives that unreachable case the harmless status `0`.
-/

/-- Error codes.  Modelled from the spec: the numeric values come from
`netcdf.h`, which is not under `src/`; the header's stated convention
(line 96 of `netcdf_proplist.h`) is that int-valued functions return
`< 0` on error and `>= 0` otherwise.  The theorems below depend only on
the sign of each code and on the codes being pairwise distinct, never on
the exact magnitudes. -/
def NC_NOERR : Int := 0

/-- Invalid argument error (negative per the header's convention). -/
def NC_EINVAL : Int := -36

/-- Out-of-memory error (negative per the header's convention). -/
def NC_ENOMEM : Int := -61

/-- Object-not-found outcome (negative per the header's convention,
distinct from `NC_EINVAL`). -/
def NC_ENOOBJECT : Int := -132

/-- Maximum stored key length in characters (`#define NCPROPSMAXKEY 31`). -/
def NCPROPSMAXKEY : Nat := 31

/-- Initial capacity of a fresh list (`#define MINPROPS 2`). -/
def MINPROPS : Nat := 2

/-- Growth factor (`#define EXPANDFACTOR 1`). -/
def EXPANDFACTOR : Nat := 1

/-- Key strings: the characters of a C string up to (not including) its
nul terminator. -/
abbrev Key := List Char

/-- The operation selector passed to a type function
(`typedef enum NCPtypeop {NCP_RECLAIM=1,NCP_COPY=2}`). -/
inductive NCPtypeop where
  | NCP_RECLAIM
  | NCP_COPY
deriving DecidableEq

/-- The three value kinds (`typedef enum NCPtype`): `NCP_CONST = 0` is the
zero value, matching calloc-zeroed slots. -/
inductive NCPtype where
  | NCP_CONST
  | NCP_BYTES
  | NCP_COMPLEX
deriving DecidableEq

/-- The key+value pair (`struct NCPpair`).  `value` and `size` are
`uintptr_t`, embedded as `Nat`; `key` is the stored C string. -/
structure NCPpair where
  key : Key
  sort : NCPtype
  value : Nat
  size : Nat
deriving DecidableEq

/-- The complex-type callback
(`typedef int (*NCPtypefcn)(NCPtypeop op, NCPpair* input, NCPpair* output)`):
given the op, the input pair and the output pair's prior contents (`none`
when the output pointer is NULL, as in a reclaim call), it returns the
`int` status and the contents it leaves in the output pair. -/
abbrev NCPtypefcn := NCPtypeop → NCPpair → Option NCPpair → Int × NCPpair

/-- One property (`struct NCPproperty`): the pair plus the callback
environment.  `typefcn` is a nullable function pointer. -/
structure NCPproperty where
  pair : NCPpair
  userdata : Nat
  typefcn : Option NCPtypefcn

/-- The property list (`struct NCproplist`).  `properties` models the
allocated array: its length is the number of allocated slots (= `alloc`
in well-formed states); only the first `count` slots are defined. -/
structure NCproplist where
  alloc : Nat
  count : Nat
  properties : List NCPproperty

/-- A calloc-zeroed pair: empty key, sort 0 (= `NCP_CONST`), value 0, size 0. -/
def zeroPair : NCPpair := { key := [], sort := .NCP_CONST, value := 0, size := 0 }

/-- A calloc-zeroed property slot (NULL `typefcn`). -/
def zeroProp : NCPproperty := { pair := zeroPair, userdata := 0, typefcn := none }

/-- Observable side effects of the reclamation / cloning code:
`freeBytes v` is `free((void*)v)` of a `NCP_BYTES` payload, `reclaimCall`
and `copyCall` record a callback invocation (with the input pair and the
returned status), `mallocBytes n` is a `malloc(n)` done while cloning a
`NCP_BYTES` payload, and `freeProperties` / `freePlist` are the two final
`free`s in `ncproplistfree`. -/
inductive PEffect where
  | freeBytes (value : Nat)
  | reclaimCall (pair : NCPpair) (stat : Int)
  | mallocBytes (size : Nat)
  | copyCall (pair : NCPpair) (stat : Int)
  | freeProperties
  | freePlist
deriving DecidableEq

/-- Effects that release an owned resource. -/
def isRelease : PEffect → Bool
  | .freeBytes _ => true
  | .reclaimCall _ _ => true
  | .freeProperties => true
  | .freePlist => true
  | _ => false

/-- Status of `prop->typefcn(NCP_RECLAIM, &prop->pair, NULL)`.  The `none`
branch is the NULL function pointer, unreachable past the `ASSERT` in
`ncproplistclear`; it is given the harmless status 0. -/
def reclaimStat (prop : NCPproperty) : Int :=
  match prop.typefcn with
  | some f => (f .NCP_RECLAIM prop.pair none).1
  | none => 0

/-- The loop body of `ncproplistclear` over the first `count` properties,
threading the C `stat` variable.  `NCP_CONST`: nothing.  `NCP_BYTES`:
`free` the value if non-NULL.  `NCP_COMPLEX`: invoke the reclaim callback;
a negative status aborts the loop (`goto done`), a non-negative one is
kept in `stat` and the loop continues. -/
def clearloop : List NCPproperty → Int → Int × List PEffect
  | [], stat => (stat, [])
  | prop :: rest, stat =>
    match prop.pair.sort with
    | .NCP_CONST => clearloop rest stat
    | .NCP_BYTES =>
      if prop.pair.value ≠ 0 then
        let r := clearloop rest stat
        (r.1, .freeBytes prop.pair.value :: r.2)
      else clearloop rest stat
    | .NCP_COMPLEX =>
      let stat2 := reclaimStat prop
      if stat2 < 0 then (stat2, [.reclaimCall prop.pair stat2])
      else
        let r := clearloop rest stat2
        (r.1, .reclaimCall prop.pair stat2 :: r.2)

/-- `ncproplistclear` on a non-NULL list: run the loop; only when it did
not abort (`stat >= 0`) is `plist->count` reset to 0 (the abort jumps over
the `plist->count = 0;` statement). -/
def clearpass (plist : NCproplist) : Int × NCproplist × List PEffect :=
  let r := clearloop (plist.properties.take plist.count) 0
  if r.1 < 0 then (r.1, plist, r.2)
  else (r.1, { plist with count := 0 }, r.2)

/-- `ncproplistclear`: NULL check, then the pass. -/
def ncproplistclear : Option NCproplist → Int × Option NCproplist × List PEffect
  | none => (0, none, [])
  | some plist =>
    let r := clearpass plist
    (r.1, some r.2.1, r.2.2)

/-- `ncproplistfree`: clear, and only when clear did not fail (`stat >= 0`)
free the properties array and the list itself (`goto done` skips both
`free`s on failure). -/
def ncproplistfree : Option NCproplist → Int × List PEffect
  | none => (0, [])
  | some plist =>
    let r := clearpass plist
    if r.1 < 0 then (r.1, r.2.2)
    else (r.1, r.2.2 ++ [.freeProperties, .freePlist])

/-- `ncproplistinit`: a zero-capacity (fresh calloc-zeroed) list gets
`MINPROPS` calloc-zeroed slots; otherwise the list is cleared.
(The `calloc` here is modelled as succeeding.) -/
def ncproplistinit (plist : NCproplist) : Int × NCproplist × List PEffect :=
  if plist.alloc = 0 then
    (NC_NOERR, { alloc := MINPROPS, count := 0, properties := List.replicate MINPROPS zeroProp }, [])
  else
    clearpass plist

/-- `ncproplistnew`: calloc a zeroed list then init it (the outer `calloc`
is modelled as succeeding). -/
def ncproplistnew : Option NCproplist :=
  let plist : NCproplist := { alloc := 0, count := 0, properties := [] }
  let r := ncproplistinit plist
  if r.1 ≠ NC_NOERR then none else some r.2.1

/-- `hasspace(plist,nelems)`: `alloc >= count + nelems`. -/
def hasspace (plist : NCproplist) (nelems : Nat) : Bool :=
  plist.alloc ≥ plist.count + nelems

/-- `extendplist(plist,nprops)`: grow the array to
`newsize = count + nprops` slots unless there is already enough space (or
`nprops == 0`); `realloc` failure (the `allocOk` oracle) yields
`NC_ENOMEM` with the list untouched. -/
def extendplist (allocOk : Bool) (plist : NCproplist) (nprops : Nat) : Int × NCproplist :=
  let newsize := plist.count + nprops
  if plist.alloc ≥ newsize ∨ nprops = 0 then (NC_NOERR, plist)
  else if allocOk then
    (NC_NOERR, { plist with
      alloc := newsize,
      properties := plist.properties ++ List.replicate (newsize - plist.properties.length) zeroProp })
  else (NC_ENOMEM, plist)

/-- Key truncation as performed by every add:
`keylen = strlen(key); if (keylen > NCPROPSMAXKEY) keylen = NCPROPSMAXKEY;`
then copy `keylen` characters and nul-terminate. -/
def truncKey (key : Key) : Key := key.take NCPROPSMAXKEY

/-- `ncproplistadd` (NCP_CONST entry).  A NULL list returns `NC_NOERR`
untouched (`goto done` with `stat` still `NC_NOERR`).  The slot's fields
the code does not write (`size`, `userdata`, `typefcn`) keep their prior
contents (`old`). -/
def ncproplistadd (allocOk : Bool) (plisto : Option NCproplist) (key : Key) (value : Nat) :
    Int × Option NCproplist :=
  match plisto with
  | none => (NC_NOERR, none)
  | some plist0 =>
    let r := if hasspace plist0 1 then (NC_NOERR, plist0)
             else extendplist allocOk plist0 ((plist0.count + 1) * EXPANDFACTOR)
    if r.1 ≠ 0 then (r.1, some r.2)
    else
      let plist := r.2
      let old := plist.properties.getD plist.count zeroProp
      let prop := { old with
        pair := { old.pair with key := truncKey key, value := value, sort := .NCP_CONST } }
      (NC_NOERR, some { plist with
        properties := plist.properties.set plist.count prop,
        count := plist.count + 1 })

/-- `ncproplistaddbytes` (NCP_BYTES entry).  Faithful to the source, the
`size` argument is declared and then discarded (`NC_UNUSED(size);` and no
assignment to `prop->pair.size`), so the stored pair's `size` field keeps
the slot's prior contents. -/
def ncproplistaddbytes (allocOk : Bool) (plisto : Option NCproplist) (key : Key)
    (value : Nat) (size : Nat) : Int × Option NCproplist :=
  match plisto with
  | none => (NC_NOERR, none)
  | some plist0 =>
    let _ := size
    let r := if hasspace plist0 1 then (NC_NOERR, plist0)
             else extendplist allocOk plist0 ((plist0.count + 1) * EXPANDFACTOR)
    if r.1 ≠ 0 then (r.1, some r.2)
    else
      let plist := r.2
      let old := plist.properties.getD plist.count zeroProp
      let prop := { old with
        pair := { old.pair with key := truncKey key, value := value, sort := .NCP_BYTES } }
      (NC_NOERR, some { plist with
        properties := plist.properties.set plist.count prop,
        count := plist.count + 1 })

/-- `ncproplistaddstring`: `size = strlen(str)+1` for a non-NULL `str`,
else 0; then delegate to `ncproplistaddbytes` with the pointer as value.
`strp` is the numeric value of the `str` pointer (the `(void*)str` cast)
and `str` the nul-terminated contents it points to (`none` for NULL). -/
def ncproplistaddstring (allocOk : Bool) (plisto : Option NCproplist) (key : Key)
    (strp : Nat) (str : Option Key) : Int × Option NCproplist :=
  let size : Nat := match str with | some s => s.length + 1 | none => 0
  ncproplistaddbytes allocOk plisto key strp size

/-- `ncproplistaddx` (NCP_COMPLEX entry): writes key, value, size,
`typefcn` and `userdata`. -/
def ncproplistaddx (allocOk : Bool) (plisto : Option NCproplist) (key : Key)
    (value : Nat) (size : Nat) (userdata : Nat) (fcn : NCPtypefcn) :
    Int × Option NCproplist :=
  match plisto with
  | none => (NC_NOERR, none)
  | some plist0 =>
    let r := if hasspace plist0 1 then (NC_NOERR, plist0)
             else extendplist allocOk plist0 ((plist0.count + 1) * EXPANDFACTOR)
    if r.1 ≠ 0 then (r.1, some r.2)
    else
      let plist := r.2
      let old := plist.properties.getD plist.count zeroProp
      let prop := { old with
        pair := { old.pair with
          key := truncKey key, value := value, size := size, sort := .NCP_COMPLEX },
        typefcn := some fcn, userdata := userdata }
      (NC_NOERR, some { plist with
        properties := plist.properties.set plist.count prop,
        count := plist.count + 1 })

/-- Status of `sp->typefcn(NCP_COPY, &sp->pair, &cp->pair)` where `cp`
was just mass-copied from `sp` (so the output's prior contents are
`sp.pair`).  The `none` branch (NULL function pointer, undefined behavior
in C) gets the harmless status 0. -/
def copyStat (sp : NCPproperty) : Int :=
  match sp.typefcn with
  | some f => (f .NCP_COPY sp.pair (some sp.pair)).1
  | none => 0

/-- Output pair left by the copy callback (see `copyStat`). -/
def copyOut (sp : NCPproperty) : NCPpair :=
  match sp.typefcn with
  | some f => (f .NCP_COPY sp.pair (some sp.pair)).2
  | none => sp.pair

/-- The loop of `ncproplistclone`: for each source property, the
destination slot `i` first receives the mass copy `*cp = *sp`, then the
kind-specific fixup.  `NCP_BYTES` mallocs a fresh buffer (address from
the `malloc` oracle at call counter `m`) and repoints the copy's value at
it.  `NCP_COMPLEX` invokes the copy callback; a negative status aborts
the loop (`goto done`) leaving the slot as the callback left it. -/
def cloneloop (malloc : Nat → Nat) :
    List NCPproperty → NCproplist → Nat → Nat → Int → Int × NCproplist × List PEffect
  | [], dest, _, _, stat => (stat, dest, [])
  | sp :: rest, dest, i, m, stat =>
    match sp.pair.sort with
    | .NCP_CONST =>
      let dest2 := { dest with properties := dest.properties.set i sp }
      cloneloop malloc rest dest2 (i + 1) m stat
    | .NCP_BYTES =>
      let p := malloc m
      let cp := { sp with pair := { sp.pair with value := p } }
      let dest2 := { dest with properties := dest.properties.set i cp }
      let r := cloneloop malloc rest dest2 (i + 1) (m + 1) stat
      (r.1, r.2.1, .mallocBytes sp.pair.size :: r.2.2)
    | .NCP_COMPLEX =>
      let stat2 := copyStat sp
      let cp := { sp with pair := copyOut sp }
      let dest2 := { dest with properties := dest.properties.set i cp }
      if stat2 < 0 then (stat2, dest2, [.copyCall sp.pair stat2])
      else
        let r := cloneloop malloc rest dest2 (i + 1) m stat2
        (r.1, r.2.1, .copyCall sp.pair stat2 :: r.2.2)

/-- `ncproplistclone`: NULL checks (the one place returning `NC_EINVAL`),
init the destination, extend it to `src->count` slots, run the loop, and
only on loop success set `clone->count = src->count` (the abort jumps
over that assignment, leaving the already-written slots behind with the
count still at its post-init value). -/
def ncproplistclone (allocOk : Bool) (malloc : Nat → Nat)
    (srco cloneo : Option NCproplist) : Int × Option NCproplist × List PEffect :=
  match srco, cloneo with
  | some src, some clone0 =>
    let r1 := ncproplistinit clone0
    if r1.1 ≠ 0 then (r1.1, some r1.2.1, r1.2.2)
    else
      let r2 := extendplist allocOk r1.2.1 src.count
      if r2.1 ≠ 0 then (r2.1, some r2.2, r1.2.2)
      else
        let r3 := cloneloop malloc (src.properties.take src.count) r2.2 0 0 0
        if r3.1 < 0 then (r3.1, some r3.2.1, r1.2.2 ++ r3.2.2)
        else (r3.1, some { r3.2.1 with count := src.count }, r1.2.2 ++ r3.2.2)
  | _, _ => (NC_EINVAL, cloneo, [])

/-- The scan of `ncproplistget`: linear walk of the first `count`
properties; the first `strcmp`-equal key wins and breaks; a full walk
leaves the initial `value = 0, size = 0` and the initial
`stat = NC_ENOOBJECT`. -/
def getloop (key : Key) : List NCPproperty → Int × Nat × Nat
  | [] => (NC_ENOOBJECT, 0, 0)
  | p :: rest =>
    if p.pair.key = key then (NC_NOERR, p.pair.value, p.pair.size)
    else getloop key rest

/-- `ncproplistget`: a NULL list or key jumps to `done` before the output
stores (so nothing is written, result components `none`); otherwise the
scan result is stored through `valuep` / `sizep`. -/
def ncproplistget (plisto : Option NCproplist) (keyo : Option Key) :
    Int × Option Nat × Option Nat :=
  match plisto, keyo with
  | some plist, some key =>
    let r := getloop key (plist.properties.take plist.count)
    (r.1, some r.2.1, some r.2.2)
  | _, _ => (NC_ENOOBJECT, none, none)

/-- `ncproplistith`: a NULL list returns `NC_NOERR` without writing the
outputs; `i >= count` returns `NC_EINVAL`; otherwise the ith property's
key, value and size are stored. -/
def ncproplistith (plisto : Option NCproplist) (i : Nat) :
    Int × Option Key × Option Nat × Option Nat :=
  match plisto with
  | none => (NC_NOERR, none, none, none)
  | some plist =>
    if i ≥ plist.count then (NC_EINVAL, none, none, none)
    else
      let prop := plist.properties.getD i zeroProp
      (NC_NOERR, some prop.pair.key, some prop.pair.value, some prop.pair.size)

/-- `ncproplistlen`: the macro reads the list's `count` field.  (The
macro's text casts to `NCproplist` where `NCproplist*` is evidently
meant — a C type-level typo in a never-instantiated macro; the field it
reads is `->count`.) -/
def ncproplistlen (plist : NCproplist) : Nat := plist.count

/-- Specification-side trace of a reclamation pass that visits every
entry of the given slice (no abort): what `ncproplistclear` would do on a
slice whose complex entries all reclaim successfully. -/
def clearEffs : List NCPproperty → List PEffect
  | [] => []
  | prop :: rest =>
    match prop.pair.sort with
    | .NCP_CONST => clearEffs rest
    | .NCP_BYTES =>
      if prop.pair.value ≠ 0 then .freeBytes prop.pair.value :: clearEffs rest
      else clearEffs rest
    | .NCP_COMPLEX => .reclaimCall prop.pair (reclaimStat prop) :: clearEffs rest

/-- Specification-side trace of a full cloning pass over a slice (no
abort): one `malloc` per `NCP_BYTES` entry, one copy callback per
`NCP_COMPLEX` entry. -/
def cloneEffs : List NCPproperty → List PEffect
  | [] => []
  | sp :: rest =>
    match sp.pair.sort with
    | .NCP_CONST => cloneEffs rest
    | .NCP_BYTES => .mallocBytes sp.pair.size :: cloneEffs rest
    | .NCP_COMPLEX => .copyCall sp.pair (copyStat sp) :: cloneEffs rest

/-- Structural well-formedness of a list: the defined prefix fits inside
the allocation, and the modelled slot array has exactly `alloc` slots. -/
def wfplist (plist : NCproplist) : Prop :=
  plist.count ≤ plist.alloc ∧ plist.properties.length = plist.alloc

/-- One insertion operation (the four Add entry points), with allocation
modelled as succeeding — used to state claims about sequences of
successful insertions. -/
inductive AddOp where
  | aconst (key : Key) (value : Nat)
  | abytes (key : Key) (value : Nat) (size : Nat)
  | astring (key : Key) (strp : Nat) (str : Option Key)
  | acomplex (key : Key) (value : Nat) (size : Nat) (userdata : Nat) (fcn : NCPtypefcn)

instance : Inhabited AddOp := ⟨.aconst [] 0⟩

/-- The property an insertion stores when it writes a calloc-zeroed slot
(the situation of every insertion in an insert-only history on a fresh
list): the key is truncated; `ncproplistadd` / `ncproplistaddbytes`
leave `size`, `userdata`, `typefcn` at the slot's zeroed contents
(`ncproplistaddbytes` discards its `size` argument — see its source);
`ncproplistaddx` writes all fields. -/
def stored : AddOp → NCPproperty
  | .aconst key value =>
    { pair := { key := truncKey key, sort := .NCP_CONST, value := value, size := 0 },
      userdata := 0, typefcn := none }
  | .abytes key value _size =>
    { pair := { key := truncKey key, sort := .NCP_BYTES, value := value, size := 0 },
      userdata := 0, typefcn := none }
  | .astring key strp _str =>
    { pair := { key := truncKey key, sort := .NCP_BYTES, value := strp, size := 0 },
      userdata := 0, typefcn := none }
  | .acomplex key value size userdata fcn =>
    { pair := { key := truncKey key, sort := .NCP_COMPLEX, value := value, size := size },
      userdata := userdata, typefcn := some fcn }

/-- Resulting state of one insertion (allocation succeeding). -/
def applyAdd (s : NCproplist) (op : AddOp) : NCproplist :=
  match op with
  | .aconst k v => ((ncproplistadd true (some s) k v).2).getD s
  | .abytes k v sz => ((ncproplistaddbytes true (some s) k v sz).2).getD s
  | .astring k strp str => ((ncproplistaddstring true (some s) k strp str).2).getD s
  | .acomplex k v sz u f => ((ncproplistaddx true (some s) k v sz u f).2).getD s

/-- Status returned by one insertion (allocation succeeding). -/
def addStat (s : NCproplist) (op : AddOp) : Int :=
  match op with
  | .aconst k v => (ncproplistadd true (some s) k v).1
  | .abytes k v sz => (ncproplistaddbytes true (some s) k v sz).1
  | .astring k strp str => (ncproplistaddstring true (some s) k strp str).1
  | .acomplex k v sz u f => (ncproplistaddx true (some s) k v sz u f).1

/-- The freshly created list (`ncproplistnew` never fails in the model). -/
def freshlist : NCproplist := (ncproplistnew).getD { alloc := 0, count := 0, properties := [] }

/-- State reached by a sequence of insertions on a fresh list. -/
def reachIns (ops : List AddOp) : NCproplist := ops.foldl applyAdd freshlist

/-- One mutating operation on a live list, covering every code path:
the four insertions (with an allocation-success oracle), clearing, and
being the destination of a clone from an arbitrary source. -/
inductive POp where
  | padd (allocOk : Bool) (key : Key) (value : Nat)
  | paddbytes (allocOk : Bool) (key : Key) (value : Nat) (size : Nat)
  | paddstring (allocOk : Bool) (key : Key) (strp : Nat) (str : Option Key)
  | paddx (allocOk : Bool) (key : Key) (value : Nat) (size : Nat) (userdata : Nat) (fcn : NCPtypefcn)
  | pclear
  | pclonefrom (allocOk : Bool) (malloc : Nat → Nat) (src : NCproplist)

/-- State of the tracked list after one operation. -/
def applyPOp (s : NCproplist) (op : POp) : NCproplist :=
  match op with
  | .padd ok k v => ((ncproplistadd ok (some s) k v).2).getD s
  | .paddbytes ok k v sz => ((ncproplistaddbytes ok (some s) k v sz).2).getD s
  | .paddstring ok k strp str => ((ncproplistaddstring ok (some s) k strp str).2).getD s
  | .paddx ok k v sz u f => ((ncproplistaddx ok (some s) k v sz u f).2).getD s
  | .pclear => ((ncproplistclear (some s)).2.1).getD s
  | .pclonefrom ok malloc src => ((ncproplistclone ok malloc (some src) (some s)).2.1).getD s

/-- State reached from a fresh list by a sequence of operations. -/
def reachP (ops : List POp) : NCproplist := ops.foldl applyPOp freshlist

/-- A type function that always fails (status −1). -/
def failRec : NCPtypefcn := fun _ _ _ => (-1, zeroPair)

/-- A type function that always succeeds (status 0, output = prior contents
or the input for a reclaim call). -/
def okRec : NCPtypefcn := fun _ input output => (0, output.getD input)

/-- Pair of the failing complex fixture entry. -/
def cpair : NCPpair := { key := ['c'], sort := .NCP_COMPLEX, value := 5, size := 1 }

/-- A complex property whose callback always reports failure. -/
def cplxFail : NCPproperty := { pair := cpair, userdata := 0, typefcn := some failRec }

/-- A bytes property with a non-NULL payload (value 7, size 3). -/
def bytA : NCPproperty :=
  { pair := { key := ['b'], sort := .NCP_BYTES, value := 7, size := 3 }, userdata := 0, typefcn := none }

/-- A second bytes property with a non-NULL payload (value 9, size 4). -/
def bytB : NCPproperty :=
  { pair := { key := ['d'], sort := .NCP_BYTES, value := 9, size := 4 }, userdata := 0, typefcn := none }

/-- Two-entry list whose first entry's reclaim callback fails and whose
second entry is an owned bytes payload. -/
def badlist : NCproplist := { alloc := 2, count := 2, properties := [cplxFail, bytA] }

/-- Three-entry list: owned bytes, then a failing complex entry, then
another owned bytes payload. -/
def badlist3 : NCproplist := { alloc := 3, count := 3, properties := [bytA, cplxFail, bytB] }

/-- Clone source whose first entry is a bytes payload (so cloning it
allocates) and whose second entry's copy callback fails. -/
def srcCopyFail : NCproplist := { alloc := 2, count := 2, properties := [bytA, cplxFail] }

/-- List holding two entries under the same key `"x"` with different
values. -/
def dupx : NCproplist :=
  { alloc := 2, count := 2,
    properties :=
      [ { pair := { key := ['x'], sort := .NCP_CONST, value := 1, size := 0 }, userdata := 0, typefcn := none },
        { pair := { key := ['x'], sort := .NCP_CONST, value := 2, size := 0 }, userdata := 0, typefcn := none } ] }

/-- An empty (fresh) list value. -/
def emptylist : NCproplist := { alloc := 2, count := 0, properties := [zeroProp, zeroProp] }

/-- Canonical shape of a list built by successful insertions only: the
count equals the number of insertions, it fits in the allocation, and
the slot array is the stored entries followed by virgin (calloc-zeroed)
slots.  Each insertion in such a history writes a virgin slot, so the
fields the code leaves unwritten are the zeroed ones (see `stored`). -/
def insShape (ops : List AddOp) (s : NCproplist) : Prop :=
  s.count = ops.length ∧ ops.length ≤ s.alloc ∧
  s.properties = ops.map stored ++ List.replicate (s.alloc - ops.length) zeroProp

/-! ## List helper lemmas -/

theorem listGetDAppendLen {α : Type} (l1 l2 : List α) (d : α) :
    (l1 ++ l2).getD l1.length d = l2.getD 0 d := by
  induction l1 with
  | nil => rfl
  | cons a t ih =>
    simp only [List.cons_append, List.length_cons, List.getD_cons_succ]
    exact ih

theorem listGetDAppendLt {α : Type} (l1 l2 : List α) (d : α) (i : Nat) (h : i < l1.length) :
    (l1 ++ l2).getD i d = l1.getD i d := by
  induction l1 generalizing i with
  | nil => simp at h
  | cons a t ih =>
    cases i with
    | zero => rfl
    | succ n =>
      have hn : n < t.length := by simpa using h
      simp only [List.cons_append, List.getD_cons_succ]
      exact ih n hn

theorem listSetAppendLen {α : Type} (l1 l2 : List α) (a : α) :
    (l1 ++ l2).set l1.length a = l1 ++ l2.set 0 a := by
  induction l1 with
  | nil => rfl
  | cons b t ih =>
    simp only [List.cons_append, List.length_cons, List.set_cons_succ]
    rw [ih]

/-! ## Claim C3 -/

/-- Claim C3 (code bug): on a fresh list, `AddString("k","hello")`
succeeds, but the following `Get("k")` returns the stored pointer with
size 0 — not `strlen("hello") + 1 = 6` as specified —  because
`ncproplistaddbytes` discards its `size` argument (`NC_UNUSED(size);`)
and never assigns `prop->pair.size`, contradicting its own parameter
documentation and breaking the `pair.size`-driven buffer copy in
`ncproplistclone`. -/
theorem addstring_get_size_dropped :
    (ncproplistaddstring true ncproplistnew ['k'] 1000 (some "hello".toList)).1 = NC_NOERR ∧
    ncproplistget (ncproplistaddstring true ncproplistnew ['k'] 1000 (some "hello".toList)).2
        (some ['k'])
      = (NC_NOERR, some 1000, some 0) ∧
    "hello".toList.length + 1 = 6 ∧ (0 : Nat) ≠ 6 :=
  ⟨by decide, by decide, by decide, by decide⟩

/-! ## Claim C5 -/

/-- Claim C5 counterexample: operations on a NULL list handle do not
fail with `NC_EINVAL`: `ncproplistadd` reports success (`NC_NOERR`,
which is ≥ 0), `ncproplistget` reports `NC_ENOOBJECT` (NotFound), and
`ncproplistith` reports success — refuting the claim that every
operation on a null handle fails with InvalidArgument. -/
theorem nullhandle_einval_counterexample :
    ncproplistadd true none ['k'] 7 = (NC_NOERR, none) ∧
    0 ≤ NC_NOERR ∧ NC_NOERR ≠ NC_EINVAL ∧
    ncproplistget none (some ['k']) = (NC_ENOOBJECT, none, none) ∧
    NC_ENOOBJECT ≠ NC_EINVAL ∧
    ncproplistith none 0 = (NC_NOERR, none, none, none) :=
  ⟨rfl, by decide, by decide, rfl, by decide, rfl⟩

/-- Claim C5 (amended): only `ncproplistclone` rejects NULL handles with
`NC_EINVAL`.  The insertion functions and `ncproplistith` return
`NC_NOERR` (success, no effect) on a NULL list, and `ncproplistget`
returns `NC_ENOOBJECT` (NotFound) on a NULL list or key without writing
its outputs. -/
theorem nullhandle_behavior :
    (∀ (ok : Bool) (k : Key) (v : Nat), ncproplistadd ok none k v = (NC_NOERR, none)) ∧
    (∀ (ok : Bool) (k : Key) (v sz : Nat), ncproplistaddbytes ok none k v sz = (NC_NOERR, none)) ∧
    (∀ (ok : Bool) (k : Key) (strp : Nat) (str : Option Key),
      ncproplistaddstring ok none k strp str = (NC_NOERR, none)) ∧
    (∀ (ok : Bool) (k : Key) (v sz u : Nat) (f : NCPtypefcn),
      ncproplistaddx ok none k v sz u f = (NC_NOERR, none)) ∧
    (∀ keyo, ncproplistget none keyo = (NC_ENOOBJECT, none, none)) ∧
    (∀ plisto, ncproplistget plisto none = (NC_ENOOBJECT, none, none)) ∧
    (∀ i, ncproplistith none i = (NC_NOERR, none, none, none)) ∧
    (∀ (ok : Bool) (m : Nat → Nat) (cloneo : Option NCproplist),
      ncproplistclone ok m none cloneo = (NC_EINVAL, cloneo, [])) ∧
    (∀ (ok : Bool) (m : Nat → Nat) (src : NCproplist),
      ncproplistclone ok m (some src) none = (NC_EINVAL, none, [])) := by
  refine ⟨fun _ _ _ => rfl, fun _ _ _ _ => rfl, fun _ _ _ _ => rfl, fun _ _ _ _ _ _ => rfl,
    fun keyo => ?_, fun plisto => ?_, fun _ => rfl, fun _ _ cloneo => ?_, fun _ _ _ => rfl⟩
  · cases keyo <;> rfl
  · cases plisto <;> rfl
  · cases cloneo <;> rfl

/-! ## Claim C10 -/

/-- Claim C10 counterexample: `ncproplistget` with a NULL list (or NULL
key) jumps to `done` before the output stores, so the caller's output
variables are left unmodified (`none` components) — refuting the claim
that the zero-stores also happen for a null list or key. -/
theorem get_null_outputs_unmodified_counterexample :
    ncproplistget none (some ['x']) = (NC_ENOOBJECT, none, none) ∧
    ncproplistget (some emptylist) none = (NC_ENOOBJECT, none, none) :=
  ⟨rfl, rfl⟩

/-! ## Claim C6 -/

/-- Claim C6 counterexample: a fresh list is full after two insertions
(`count = alloc = 2`); the third insertion grows the capacity to
`count + (count+1)·EXPANDFACTOR = 5`, not to `old count + 1 = 3` as
claimed. -/
theorem growth_not_count_plus_one_counterexample :
    (reachIns [.aconst ['a'] 1, .aconst ['b'] 2]).alloc = 2 ∧
    (reachIns [.aconst ['a'] 1, .aconst ['b'] 2]).count = 2 ∧
    (reachIns [.aconst ['a'] 1, .aconst ['b'] 2, .aconst ['c'] 3]).alloc = 5 ∧
    (5 : Nat) ≠ 2 + 1 :=
  ⟨by decide, by decide, by decide, by decide⟩

/-- Claim C6 (amended): an `Add*` on a full list (`count = alloc`) grows
the storage to `count + (count + 1) · EXPANDFACTOR = 2·count + 1` slots
(the caller requests `(count+1)·EXPANDFACTOR` additional slots and
`extendplist` adds them on top of `count`), then appends, so the new
capacity is `2·count + 1`, not `count + 1`. -/
theorem add_full_list_growth (s : NCproplist) (k : Key) (v : Nat) (hfull : s.alloc = s.count) :
    (ncproplistadd true (some s) k v).1 = NC_NOERR ∧
    ((ncproplistadd true (some s) k v).2.map NCproplist.alloc) = some (2 * s.count + 1) ∧
    ((ncproplistadd true (some s) k v).2.map NCproplist.count) = some (s.count + 1) := by
  have hspace : hasspace s 1 = false := by
    simp [hasspace, hfull]
  have hextend : extendplist true s ((s.count + 1) * EXPANDFACTOR)
      = (NC_NOERR, { s with
          alloc := s.count + (s.count + 1),
          properties := s.properties ++
            List.replicate (s.count + (s.count + 1) - s.properties.length) zeroProp }) := by
    have hcond : ¬ (s.alloc ≥ s.count + (s.count + 1) * EXPANDFACTOR ∨
        (s.count + 1) * EXPANDFACTOR = 0) := by
      simp [EXPANDFACTOR, hfull]
    simp [extendplist, EXPANDFACTOR] at hcond ⊢
    omega
  refine ⟨?_, ?_, ?_⟩
  · simp [ncproplistadd, hspace, hextend, NC_NOERR]
  · simp [ncproplistadd, hspace, hextend, NC_NOERR]
    omega
  · simp [ncproplistadd, hspace, hextend, NC_NOERR]

/-- Claim C6 witness: instantiating the growth theorem on the concrete
full list reached by two insertions. -/
theorem add_full_list_growth_witness :
    ((ncproplistadd true (some (reachIns [.aconst ['a'] 1, .aconst ['b'] 2])) ['c'] 3).2.map
      NCproplist.alloc) = some 5 := by
  have h := add_full_list_growth (reachIns [.aconst ['a'] 1, .aconst ['b'] 2]) ['c'] 3 (by decide)
  exact h.2.1.trans (by decide)

/-! ## Claim C4 -/

theorem getloop_first (key : Key) (l : List NCPproperty) (i : Nat) (hi : i < l.length)
    (hfirst : ∀ j, j < i → (l.getD j zeroProp).pair.key ≠ key)
    (hmatch : (l.getD i zeroProp).pair.key = key) :
    getloop key l = (NC_NOERR, (l.getD i zeroProp).pair.value, (l.getD i zeroProp).pair.size) := by
  induction l generalizing i with
  | nil => simp at hi
  | cons p rest ih =>
    cases i with
    | zero =>
      simp only [List.getD_cons_zero] at hmatch ⊢
      simp [getloop, hmatch]
    | succ n =>
      have hp : p.pair.key ≠ key := by
        have h0 := hfirst 0 (Nat.succ_pos n)
        simpa using h0
      have hn : n < rest.length := by simpa using hi
      simp only [List.getD_cons_succ] at hmatch ⊢
      simp only [getloop, if_neg hp]
      exact ih n hn (fun j hj => by
        have := hfirst (j + 1) (by omega)
        simpa using this) hmatch

theorem getloop_miss (key : Key) (l : List NCPproperty)
    (h : ∀ p ∈ l, p.pair.key ≠ key) :
    getloop key l = (NC_ENOOBJECT, 0, 0) := by
  induction l with
  | nil => rfl
  | cons p rest ih =>
    simp only [getloop, if_neg (h p (List.mem_cons_self p rest))]
    exact ih (fun q hq => h q (List.mem_cons_of_mem p hq))

/-- Claim C4: `ncproplistget` scans the first `count` entries in order
and returns the value and size of the first entry whose key equals the
lookup key (so with duplicate keys the first-inserted entry wins); when
no entry matches — including on an empty list — it returns
`NC_ENOOBJECT`, a NotFound outcome distinct from the generic `NC_EINVAL`
error and from success. -/
theorem get_first_match_or_notfound :
    (∀ (plist : NCproplist) (key : Key) (i : Nat),
      i < plist.count → i < plist.properties.length →
      (∀ j, j < i → (((plist.properties.take plist.count).getD j zeroProp)).pair.key ≠ key) →
      (((plist.properties.take plist.count).getD i zeroProp)).pair.key = key →
      ncproplistget (some plist) (some key)
        = (NC_NOERR,
           some (((plist.properties.take plist.count).getD i zeroProp)).pair.value,
           some (((plist.properties.take plist.count).getD i zeroProp)).pair.size)) ∧
    (∀ (plist : NCproplist) (key : Key),
      (∀ p ∈ plist.properties.take plist.count, p.pair.key ≠ key) →
      ncproplistget (some plist) (some key) = (NC_ENOOBJECT, some 0, some 0)) ∧
    NC_ENOOBJECT ≠ NC_EINVAL ∧ NC_ENOOBJECT ≠ NC_NOERR ∧ NC_ENOOBJECT < 0 := by
  refine ⟨?_, ?_, by decide, by decide, by decide⟩
  · intro plist key i hi hlen hfirst hmatch
    have hitake : i < (plist.properties.take plist.count).length := by
      simp [List.length_take]
      omega
    have h := getloop_first key (plist.properties.take plist.count) i hitake hfirst hmatch
    simp [ncproplistget, h]
  · intro plist key hmiss
    have h := getloop_miss key (plist.properties.take plist.count) hmiss
    simp [ncproplistget, h]

/-- Claim C4 witness: on the two-entry list with duplicated key `"x"`
the first-inserted value 1 is returned, and a lookup on an empty list
returns `NC_ENOOBJECT` with zeroed outputs. -/
theorem get_first_match_or_notfound_witness :
    ncproplistget (some dupx) (some ['x']) = (NC_NOERR, some 1, some 0) ∧
    ncproplistget (some emptylist) (some ['x']) = (NC_ENOOBJECT, some 0, some 0) := by
  constructor
  · have h := get_first_match_or_notfound.1 dupx ['x'] 0 (by decide) (by decide)
      (fun j hj => absurd hj (by omega)) (by decide)
    exact h.trans (by decide)
  · exact get_first_match_or_notfound.2.1 emptylist ['x'] (by intro p hp; simp [emptylist] at hp)

/-! ## Claim C10 (amended) -/

/-- Claim C10 (amended): on a genuine miss — non-NULL list and key but no
matching entry — `ncproplistget` stores 0 through both (non-null) output
pointers; but with a NULL list or NULL key it jumps straight to `done`
and leaves the caller's output variables unmodified. -/
theorem get_miss_zeroes_outputs :
    (∀ (plist : NCproplist) (key : Key),
      (∀ p ∈ plist.properties.take plist.count, p.pair.key ≠ key) →
      ncproplistget (some plist) (some key) = (NC_ENOOBJECT, some 0, some 0)) ∧
    (∀ keyo, ncproplistget none keyo = (NC_ENOOBJECT, none, none)) ∧
    (∀ plisto, ncproplistget plisto none = (NC_ENOOBJECT, none, none)) := by
  refine ⟨?_, fun keyo => by cases keyo <;> rfl, fun plisto => by cases plisto <;> rfl⟩
  intro plist key hmiss
  have h := getloop_miss key (plist.properties.take plist.count) hmiss
  simp [ncproplistget, h]

/-- Claim C10 witness: a lookup on an empty list zeroes both outputs,
while the NULL cases leave them unwritten. -/
theorem get_miss_zeroes_outputs_witness :
    ncproplistget (some emptylist) (some ['q']) = (NC_ENOOBJECT, some 0, some 0) ∧
    ncproplistget none (some ['q']) = (NC_ENOOBJECT, none, none) := by
  constructor
  · exact get_miss_zeroes_outputs.1 emptylist ['q'] (by intro p hp; simp [emptylist] at hp)
  · exact get_miss_zeroes_outputs.2.1 (some ['q'])

/-! ## Claim C7 -/

theorem listGetDSetSelf {α : Type} (l : List α) (n : Nat) (a d : α) (h : n < l.length) :
    (l.set n a).getD n d = a := by
  induction l generalizing n with
  | nil => simp at h
  | cons b t ih =>
    cases n with
    | zero => rfl
    | succ m =>
      simp only [List.set_cons_succ, List.getD_cons_succ]
      exact ih m (by simpa using h)

/-- The common grow step at the head of every insertion
(`if(!hasspace(plist,1)) extendplist(plist,(plist->count+1)*EXPANDFACTOR)`),
with allocation succeeding: it reports `NC_NOERR`, keeps `count`, and
guarantees a free slot at index `count` of the (well-formed) array. -/
theorem growone_spec (s : NCproplist) (hwf : wfplist s) :
    (if hasspace s 1 then ((NC_NOERR : Int), s)
     else extendplist true s ((s.count + 1) * EXPANDFACTOR)).1 = NC_NOERR ∧
    (if hasspace s 1 then ((NC_NOERR : Int), s)
     else extendplist true s ((s.count + 1) * EXPANDFACTOR)).2.count = s.count ∧
    s.count < (if hasspace s 1 then ((NC_NOERR : Int), s)
     else extendplist true s ((s.count + 1) * EXPANDFACTOR)).2.properties.length := by
  obtain ⟨hc, hl⟩ := hwf
  cases hs : hasspace s 1 with
  | true =>
    rw [if_pos rfl]
    refine ⟨rfl, rfl, ?_⟩
    show s.count < s.properties.length
    simp [hasspace] at hs
    omega
  | false =>
    have halloc : s.alloc = s.count := by
      simp [hasspace] at hs; omega
    have hext : extendplist true s ((s.count + 1) * EXPANDFACTOR)
        = (NC_NOERR, { s with
            alloc := s.count + (s.count + 1),
            properties := s.properties ++
              List.replicate (s.count + (s.count + 1) - s.properties.length) zeroProp }) := by
      have hcond : ¬ (s.alloc ≥ s.count + (s.count + 1) * EXPANDFACTOR ∨
          (s.count + 1) * EXPANDFACTOR = 0) := by
        simp [EXPANDFACTOR, halloc]
      simp [extendplist, EXPANDFACTOR] at hcond ⊢
      omega
    rw [if_neg (by simp), hext]
    refine ⟨rfl, rfl, ?_⟩
    simp only [List.length_append, List.length_replicate]
    omega

/-- Claim C7: every insertion stores only the first `NCPROPSMAXKEY = 31`
characters of its key (silent truncation), so a 40-character key is
retrievable via its first 31 characters, and a second, distinct
40-character key sharing the same 31-character prefix collides with the
first on lookup, `Get` returning the first-inserted value. -/
theorem key_truncation_and_collision :
    (∀ (s : NCproplist) (k : Key) (v : Nat), wfplist s →
      ((ncproplistadd true (some s) k v).2.map
        (fun s2 => (s2.properties.getD s.count zeroProp).pair.key)) = some (k.take 31)) ∧
    (∀ (s : NCproplist) (k : Key) (v sz : Nat), wfplist s →
      ((ncproplistaddbytes true (some s) k v sz).2.map
        (fun s2 => (s2.properties.getD s.count zeroProp).pair.key)) = some (k.take 31)) ∧
    (∀ (s : NCproplist) (k : Key) (v sz u : Nat) (f : NCPtypefcn), wfplist s →
      ((ncproplistaddx true (some s) k v sz u f).2.map
        (fun s2 => (s2.properties.getD s.count zeroProp).pair.key)) = some (k.take 31)) ∧
    (∀ (k1 k2 : Key) (v1 v2 : Nat),
      k1.length = 40 → k2.length = 40 → k1 ≠ k2 → k1.take 31 = k2.take 31 →
      ncproplistget (some (reachIns [.aconst k1 v1, .aconst k2 v2])) (some (k1.take 31))
        = (NC_NOERR, some v1, some 0)) := by
  refine ⟨?_, ?_, ?_, ?_⟩
  · intro s k v hwf
    obtain ⟨h1, h2, h3⟩ := growone_spec s hwf
    simp only [ncproplistadd]
    set R := if hasspace s 1 then ((NC_NOERR : Int), s)
      else extendplist true s ((s.count + 1) * EXPANDFACTOR) with hR
    rw [if_neg (by rw [h1, NC_NOERR]; simp)]
    simp only [Option.map_some', Option.some.injEq]
    rw [← h2, listGetDSetSelf _ _ _ _ (by rw [h2]; exact h3)]
    rfl
  · intro s k v sz hwf
    obtain ⟨h1, h2, h3⟩ := growone_spec s hwf
    simp only [ncproplistaddbytes]
    set R := if hasspace s 1 then ((NC_NOERR : Int), s)
      else extendplist true s ((s.count + 1) * EXPANDFACTOR) with hR
    rw [if_neg (by rw [h1, NC_NOERR]; simp)]
    simp only [Option.map_some', Option.some.injEq]
    rw [← h2, listGetDSetSelf _ _ _ _ (by rw [h2]; exact h3)]
    rfl
  · intro s k v sz u f hwf
    obtain ⟨h1, h2, h3⟩ := growone_spec s hwf
    simp only [ncproplistaddx]
    set R := if hasspace s 1 then ((NC_NOERR : Int), s)
      else extendplist true s ((s.count + 1) * EXPANDFACTOR) with hR
    rw [if_neg (by rw [h1, NC_NOERR]; simp)]
    simp only [Option.map_some', Option.some.injEq]
    rw [← h2, listGetDSetSelf _ _ _ _ (by rw [h2]; exact h3)]
    rfl
  · intro k1 k2 v1 v2 hl1 hl2 hne htake
    have hstate : reachIns [AddOp.aconst k1 v1, AddOp.aconst k2 v2]
        = { alloc := 2, count := 2,
            properties :=
              [ { pair := { key := truncKey k1, sort := .NCP_CONST, value := v1, size := 0 },
                  userdata := 0, typefcn := none },
                { pair := { key := truncKey k2, sort := .NCP_CONST, value := v2, size := 0 },
                  userdata := 0, typefcn := none } ] } := rfl
    rw [hstate]
    simp [ncproplistget, getloop, truncKey, NCPROPSMAXKEY]

/-- Claim C7 witness: two distinct 40-character keys sharing a
31-character prefix; the lookup by the shared prefix returns the
first-inserted value, and the stored key of an insertion is the
31-character truncation. -/
theorem key_truncation_and_collision_witness :
    ncproplistget
        (some (reachIns [.aconst (List.replicate 40 'a') 7,
                         .aconst (List.replicate 39 'a' ++ ['b']) 8]))
        (some ((List.replicate 40 'a').take 31))
      = (NC_NOERR, some 7, some 0) ∧
    ((ncproplistadd true (some emptylist) (List.replicate 40 'a') 7).2.map
      (fun s2 => (s2.properties.getD emptylist.count zeroProp).pair.key))
      = some (List.replicate 31 'a') := by
  constructor
  · exact key_truncation_and_collision.2.2.2 (List.replicate 40 'a')
      (List.replicate 39 'a' ++ ['b']) 7 8 (by decide) (by decide) (by decide) (by decide)
  · have h := key_truncation_and_collision.1 emptylist (List.replicate 40 'a') 7
      (by constructor <;> decide)
    exact h.trans (by decide)

/-! ## Claim C1 -/

theorem clearloop_all_ok (l : List NCPproperty) (stat0 : Int) (h0 : 0 ≤ stat0)
    (h : ∀ p ∈ l, p.pair.sort = .NCP_COMPLEX → 0 ≤ reclaimStat p) :
    0 ≤ (clearloop l stat0).1 ∧ (clearloop l stat0).2 = clearEffs l := by
  induction l generalizing stat0 with
  | nil => exact ⟨h0, rfl⟩
  | cons p rest ih =>
    have hrest : ∀ q ∈ rest, q.pair.sort = .NCP_COMPLEX → 0 ≤ reclaimStat q :=
      fun q hq => h q (List.mem_cons_of_mem p hq)
    cases hsort : p.pair.sort with
    | NCP_CONST =>
      simp only [clearloop, clearEffs, hsort]
      exact ih stat0 h0 hrest
    | NCP_BYTES =>
      simp only [clearloop, clearEffs, hsort]
      by_cases hv : p.pair.value ≠ 0
      · rw [if_pos hv, if_pos hv]
        obtain ⟨ha, hb⟩ := ih stat0 h0 hrest
        exact ⟨ha, by rw [hb]⟩
      · rw [if_neg hv, if_neg hv]
        exact ih stat0 h0 hrest
    | NCP_COMPLEX =>
      have hstat : 0 ≤ reclaimStat p := h p (List.mem_cons_self p rest) hsort
      simp only [clearloop, clearEffs, hsort]
      rw [if_neg (by omega)]
      obtain ⟨ha, hb⟩ := ih (reclaimStat p) hstat hrest
      exact ⟨ha, by rw [hb]⟩

theorem clearloop_failfirst (pre : List NCPproperty) (prop : NCPproperty)
    (post : List NCPproperty) (stat0 : Int) (h0 : 0 ≤ stat0)
    (hpre : ∀ p ∈ pre, p.pair.sort = .NCP_COMPLEX → 0 ≤ reclaimStat p)
    (hsort : prop.pair.sort = .NCP_COMPLEX) (hfail : reclaimStat prop < 0) :
    clearloop (pre ++ prop :: post) stat0
      = (reclaimStat prop, clearEffs pre ++ [.reclaimCall prop.pair (reclaimStat prop)]) := by
  induction pre generalizing stat0 with
  | nil =>
    simp only [List.nil_append, clearloop, clearEffs, hsort]
    rw [if_pos hfail]
  | cons q rest ih =>
    have hrest : ∀ p ∈ rest, p.pair.sort = .NCP_COMPLEX → 0 ≤ reclaimStat p :=
      fun p hp => hpre p (List.mem_cons_of_mem q hp)
    cases hqs : q.pair.sort with
    | NCP_CONST =>
      simp only [List.cons_append, List.append_eq, clearloop, clearEffs, hqs]
      exact ih stat0 h0 hrest
    | NCP_BYTES =>
      simp only [List.cons_append, List.append_eq, clearloop, clearEffs, hqs]
      by_cases hv : q.pair.value ≠ 0
      · rw [if_pos hv, if_pos hv, ih stat0 h0 hrest]
        simp
      · rw [if_neg hv, if_neg hv]
        exact ih stat0 h0 hrest
    | NCP_COMPLEX =>
      have hstat : 0 ≤ reclaimStat q := hpre q (List.mem_cons_self q rest) hqs
      simp only [List.cons_append, List.append_eq, clearloop, clearEffs, hqs]
      rw [if_neg (by omega), ih (reclaimStat q) hstat hrest]

/-- Claim C1 counterexample: on the two-entry list `[complexFail, bytes]`
the reclamation pass is not best-effort: the first entry's failing
reclaim callback aborts the pass (status −1), the second (bytes) entry is
never freed — the sole effect is the one failing callback — the count is
left at 2 instead of being reset to 0, and `ncproplistfree` propagates
the error without freeing the list's own storage (no `freeProperties` /
`freePlist` effects). -/
theorem clear_bestEffort_counterexample :
    (ncproplistclear (some badlist)).1 = -1 ∧
    ((ncproplistclear (some badlist)).2.1.map NCproplist.count) = some 2 ∧
    (ncproplistclear (some badlist)).2.2 = [PEffect.reclaimCall cpair (-1)] ∧
    ncproplistfree (some badlist) = (-1, [PEffect.reclaimCall cpair (-1)]) :=
  ⟨rfl, rfl, by decide, by decide⟩

/-- Claim C1 (amended): the reclamation pass of `ncproplistclear` visits
entries in order but aborts at the first `Complex` entry whose reclaim
callback fails: that failure's status is returned, entries after the
failing one are not reclaimed, and the count is left unchanged —
`count` is reset to 0 only when no callback fails — and
`ncproplistfree` propagates the failure and in that case does not free
the list's own storage; only on a failure-free pass does it free the
storage and the list. -/
theorem clear_aborts_on_first_reclaim_failure :
    (∀ (plist : NCproplist) (pre post : List NCPproperty) (prop : NCPproperty),
      plist.properties.take plist.count = pre ++ prop :: post →
      (∀ p ∈ pre, p.pair.sort = .NCP_COMPLEX → 0 ≤ reclaimStat p) →
      prop.pair.sort = .NCP_COMPLEX → reclaimStat prop < 0 →
      ncproplistclear (some plist)
        = (reclaimStat prop, some plist,
           clearEffs pre ++ [.reclaimCall prop.pair (reclaimStat prop)]) ∧
      ncproplistfree (some plist)
        = (reclaimStat prop,
           clearEffs pre ++ [.reclaimCall prop.pair (reclaimStat prop)])) ∧
    (∀ (plist : NCproplist),
      (∀ p ∈ plist.properties.take plist.count, p.pair.sort = .NCP_COMPLEX → 0 ≤ reclaimStat p) →
      0 ≤ (ncproplistclear (some plist)).1 ∧
      (ncproplistclear (some plist)).2.1 = some { plist with count := 0 } ∧
      (ncproplistclear (some plist)).2.2 = clearEffs (plist.properties.take plist.count) ∧
      ncproplistfree (some plist)
        = ((ncproplistclear (some plist)).1,
           clearEffs (plist.properties.take plist.count) ++ [.freeProperties, .freePlist])) := by
  constructor
  · intro plist pre post prop hsplit hpre hsort hfail
    have hloop := clearloop_failfirst pre prop post 0 le_rfl hpre hsort hfail
    constructor
    · simp only [ncproplistclear, clearpass, hsplit, hloop]
      rw [if_pos hfail]
    · simp only [ncproplistfree, clearpass, hsplit, hloop]
      rw [if_pos hfail, if_pos hfail]
  · intro plist h
    obtain ⟨ha, hb⟩ := clearloop_all_ok (plist.properties.take plist.count) 0 le_rfl h
    have hnn : ¬ (clearloop (plist.properties.take plist.count) 0).1 < 0 := by omega
    refine ⟨?_, ?_, ?_, ?_⟩
    · simp only [ncproplistclear, clearpass]
      rw [if_neg hnn]
      exact ha
    · simp only [ncproplistclear, clearpass]
      rw [if_neg hnn]
    · simp only [ncproplistclear, clearpass]
      rw [if_neg hnn]
      exact hb
    · simp only [ncproplistclear, ncproplistfree, clearpass]
      rw [if_neg hnn, if_neg hnn, hb]

/-- Claim C1 witness: on the three-entry list `[bytes, complexFail,
bytes]` the pass frees the first entry, aborts at the failing second
entry, and never touches the third; free does not release the storage. -/
theorem clear_aborts_on_first_reclaim_failure_witness :
    ncproplistclear (some badlist3)
      = (-1, some badlist3, [PEffect.freeBytes 7, PEffect.reclaimCall cpair (-1)]) ∧
    ncproplistfree (some badlist3)
      = (-1, [PEffect.freeBytes 7, PEffect.reclaimCall cpair (-1)]) := by
  have h := clear_aborts_on_first_reclaim_failure.1 badlist3 [bytA] [bytB] cplxFail rfl
    (by
      intro p hp hc
      rw [List.mem_singleton] at hp
      subst hp
      exact absurd hc (by decide))
    rfl (by decide)
  exact ⟨h.1, h.2⟩

/-! ## Claim C2 -/

theorem extendplist_allocOk (s : NCproplist) (n : Nat) :
    (extendplist true s n).1 = NC_NOERR := by
  simp only [extendplist]
  split <;> rfl

theorem extendplist_count (ok : Bool) (s : NCproplist) (n : Nat) :
    (extendplist ok s n).2.count = s.count := by
  simp only [extendplist]
  split
  · rfl
  · split <;> rfl

theorem extendplist_alloc_mono (ok : Bool) (s : NCproplist) (n : Nat) :
    s.alloc ≤ (extendplist ok s n).2.alloc := by
  simp only [extendplist]
  split
  · exact le_rfl
  · next h =>
    split
    · show s.alloc ≤ s.count + n
      omega
    · exact le_rfl

theorem extendplist_true_alloc (s : NCproplist) (n : Nat) (hc : s.count ≤ s.alloc) :
    s.count + n ≤ (extendplist true s n).2.alloc := by
  simp only [extendplist]
  split
  · next h =>
    show s.count + n ≤ s.alloc
    omega
  · exact le_rfl

theorem extendplist_length (ok : Bool) (s : NCproplist) (n : Nat)
    (hl : s.properties.length = s.alloc) :
    (extendplist ok s n).2.properties.length = (extendplist ok s n).2.alloc := by
  simp only [extendplist]
  split
  · exact hl
  · next h =>
    split
    · show (s.properties ++ List.replicate (s.count + n - s.properties.length) zeroProp).length
        = s.count + n
      simp only [List.length_append, List.length_replicate]
      omega
    · exact hl

theorem cloneloop_preserves (malloc : Nat → Nat) (l : List NCPproperty) :
    ∀ (dest : NCproplist) (i m : Nat) (stat : Int),
      (cloneloop malloc l dest i m stat).2.1.count = dest.count ∧
      (cloneloop malloc l dest i m stat).2.1.alloc = dest.alloc ∧
      (cloneloop malloc l dest i m stat).2.1.properties.length = dest.properties.length := by
  induction l with
  | nil => intro dest i m stat; exact ⟨rfl, rfl, rfl⟩
  | cons sp rest ih =>
    intro dest i m stat
    cases hs : sp.pair.sort with
    | NCP_CONST =>
      simp only [cloneloop, hs]
      exact ⟨(ih _ (i + 1) m stat).1, (ih _ (i + 1) m stat).2.1,
        ((ih _ (i + 1) m stat).2.2).trans (by simp [List.length_set])⟩
    | NCP_BYTES =>
      simp only [cloneloop, hs]
      exact ⟨(ih _ (i + 1) (m + 1) stat).1, (ih _ (i + 1) (m + 1) stat).2.1,
        ((ih _ (i + 1) (m + 1) stat).2.2).trans (by simp [List.length_set])⟩
    | NCP_COMPLEX =>
      simp only [cloneloop, hs]
      by_cases hc : copyStat sp < 0
      · rw [if_pos hc]
        exact ⟨rfl, rfl, by simp [List.length_set]⟩
      · rw [if_neg hc]
        exact ⟨(ih _ (i + 1) m (copyStat sp)).1, (ih _ (i + 1) m (copyStat sp)).2.1,
          ((ih _ (i + 1) m (copyStat sp)).2.2).trans (by simp [List.length_set])⟩

theorem cloneloop_failfirst (malloc : Nat → Nat) (prop : NCPproperty)
    (post : List NCPproperty)
    (hsort : prop.pair.sort = .NCP_COMPLEX) (hfail : copyStat prop < 0) :
    ∀ (pre : List NCPproperty) (dest : NCproplist) (i m : Nat) (stat0 : Int), 0 ≤ stat0 →
      (∀ p ∈ pre, p.pair.sort = .NCP_COMPLEX → 0 ≤ copyStat p) →
      (cloneloop malloc (pre ++ prop :: post) dest i m stat0).1 = copyStat prop ∧
      (cloneloop malloc (pre ++ prop :: post) dest i m stat0).2.2
        = cloneEffs pre ++ [.copyCall prop.pair (copyStat prop)] := by
  intro pre
  induction pre with
  | nil =>
    intro dest i m stat0 h0 hpre
    simp only [List.nil_append, cloneloop, cloneEffs, hsort]
    rw [if_pos hfail]
    exact ⟨rfl, rfl⟩
  | cons q rest ih =>
    intro dest i m stat0 h0 hpre
    have hrest : ∀ p ∈ rest, p.pair.sort = .NCP_COMPLEX → 0 ≤ copyStat p :=
      fun p hp => hpre p (List.mem_cons_of_mem q hp)
    cases hqs : q.pair.sort with
    | NCP_CONST =>
      simp only [List.cons_append, List.append_eq, cloneloop, cloneEffs, hqs]
      exact ih _ (i + 1) m stat0 h0 hrest
    | NCP_BYTES =>
      simp only [List.cons_append, List.append_eq, cloneloop, cloneEffs, hqs]
      obtain ⟨ha, hb⟩ := ih _ (i + 1) (m + 1) stat0 h0 hrest
      refine ⟨ha, ?_⟩
      rw [hb]
    | NCP_COMPLEX =>
      have hstat : 0 ≤ copyStat q := hpre q (List.mem_cons_self q rest) hqs
      simp only [List.cons_append, List.append_eq, cloneloop, cloneEffs, hqs]
      rw [if_neg (by omega)]
      obtain ⟨ha, hb⟩ := ih _ (i + 1) m (copyStat q) hstat hrest
      refine ⟨ha, ?_⟩
      rw [hb]

theorem cloneEffs_no_release (l : List NCPproperty) :
    (cloneEffs l).filter (fun e => isRelease e) = [] := by
  induction l with
  | nil => rfl
  | cons sp rest ih =>
    cases hs : sp.pair.sort with
    | NCP_CONST =>
      simp only [cloneEffs, hs]
      exact ih
    | NCP_BYTES =>
      simp only [cloneEffs, hs, List.filter_cons]
      simpa [isRelease] using ih
    | NCP_COMPLEX =>
      simp only [cloneEffs, hs, List.filter_cons]
      simpa [isRelease] using ih

/-- Plumbing of `ncproplistclone` into a freshly created destination when
the copy loop aborts: the init and extend steps succeed and the final
`clone->count = src->count` assignment is skipped. -/
theorem ncproplistclone_fresh_fail (src : NCproplist) (malloc : Nat → Nat)
    (hneg : (cloneloop malloc (src.properties.take src.count)
        (extendplist true freshlist src.count).2 0 0 0).1 < 0) :
    ncproplistclone true malloc (some src) ncproplistnew
      = ((cloneloop malloc (src.properties.take src.count)
            (extendplist true freshlist src.count).2 0 0 0).1,
         some (cloneloop malloc (src.properties.take src.count)
            (extendplist true freshlist src.count).2 0 0 0).2.1,
         (cloneloop malloc (src.properties.take src.count)
            (extendplist true freshlist src.count).2 0 0 0).2.2) := by
  rw [show ncproplistnew = some freshlist from rfl]
  simp only [ncproplistclone]
  rw [show ncproplistinit freshlist = ((NC_NOERR : Int), freshlist, ([] : List PEffect)) from rfl]
  dsimp only
  split
  · next h => simp [NC_NOERR] at h
  · split
    · next h =>
      rw [extendplist_allocOk] at h
      simp [NC_NOERR] at h
    · simp [hneg]

/-- Claim C2 counterexample: cloning the list `[bytes, complexCopyFail]`
into a fresh destination aborts at the second entry with the callback's
error, but the bytes buffer malloc'ed for the first entry is never
released — the effect trace holds the allocation and the failing copy
call and no release effect at all — and the half-built clone (count 0,
slot 0 still holding the fresh buffer) is simply returned. -/
theorem clone_release_counterexample :
    (ncproplistclone true (fun _ => 500) (some srcCopyFail) ncproplistnew).1 = -1 ∧
    (ncproplistclone true (fun _ => 500) (some srcCopyFail) ncproplistnew).2.2
      = [PEffect.mallocBytes 3, PEffect.copyCall cpair (-1)] ∧
    ((ncproplistclone true (fun _ => 500) (some srcCopyFail) ncproplistnew).2.2.filter
      (fun e => isRelease e)) = [] ∧
    ((ncproplistclone true (fun _ => 500) (some srcCopyFail) ncproplistnew).2.1.map
      NCproplist.count) = some 0 :=
  ⟨rfl, by decide, by decide, rfl⟩

/-- Claim C2 (amended): when a `Complex` entry's copy callback fails
partway through `ncproplistclone` into a fresh destination, the clone
aborts immediately on that first error and surfaces it, but it does
NOT release the entries already cloned: the effect trace consists of
the allocations/copy calls made so far plus the failing copy call and
contains no release effect, and the partially-built destination (its
count still 0, its slots holding the already-cloned entries) is left
behind. -/
theorem clone_aborts_without_release :
    ∀ (src : NCproplist) (pre post : List NCPproperty) (prop : NCPproperty)
      (malloc : Nat → Nat),
      src.properties.take src.count = pre ++ prop :: post →
      (∀ p ∈ pre, p.pair.sort = .NCP_COMPLEX → 0 ≤ copyStat p) →
      prop.pair.sort = .NCP_COMPLEX → copyStat prop < 0 →
      (ncproplistclone true malloc (some src) ncproplistnew).1 = copyStat prop ∧
      (ncproplistclone true malloc (some src) ncproplistnew).2.2
        = cloneEffs pre ++ [.copyCall prop.pair (copyStat prop)] ∧
      ((ncproplistclone true malloc (some src) ncproplistnew).2.2.filter
        (fun e => isRelease e)) = [] ∧
      ((ncproplistclone true malloc (some src) ncproplistnew).2.1.map NCproplist.count)
        = some 0 := by
  intro src pre post prop malloc hsplit hpre hsort hfail
  obtain ⟨ha, hb⟩ := cloneloop_failfirst malloc prop post hsort hfail pre
    (extendplist true freshlist src.count).2 0 0 0 le_rfl hpre
  rw [← hsplit] at ha hb
  have hclone := ncproplistclone_fresh_fail src malloc (by rw [ha]; exact hfail)
  have hcnt := (cloneloop_preserves malloc (src.properties.take src.count)
    (extendplist true freshlist src.count).2 0 0 0).1
  have hdcnt : (extendplist true freshlist src.count).2.count = 0 :=
    extendplist_count true freshlist src.count
  refine ⟨?_, ?_, ?_, ?_⟩
  · rw [hclone]
    exact ha
  · rw [hclone]
    exact hb
  · rw [hclone]
    show ((cloneloop malloc (src.properties.take src.count)
        (extendplist true freshlist src.count).2 0 0 0).2.2.filter (fun e => isRelease e)) = []
    rw [hb, List.filter_append, cloneEffs_no_release]
    simp [isRelease]
  · rw [hclone]
    show some (cloneloop malloc (src.properties.take src.count)
        (extendplist true freshlist src.count).2 0 0 0).2.1.count = some 0
    rw [hcnt, hdcnt]

/-- Claim C2 witness: cloning `[bytes, complexCopyFail, bytes]` into a
fresh list aborts with the callback's −1 after malloc'ing the first
entry's buffer; no release effect occurs and the destination count
stays 0. -/
theorem clone_aborts_without_release_witness :
    (ncproplistclone true (fun _ => 500) (some badlist3) ncproplistnew).1 = -1 ∧
    (ncproplistclone true (fun _ => 500) (some badlist3) ncproplistnew).2.2
      = [PEffect.mallocBytes 3, PEffect.copyCall cpair (-1)] ∧
    ((ncproplistclone true (fun _ => 500) (some badlist3) ncproplistnew).2.1.map
      NCproplist.count) = some 0 := by
  have h := clone_aborts_without_release badlist3 [bytA] [bytB] cplxFail (fun _ => 500) rfl
    (by
      intro p hp hc
      rw [List.mem_singleton] at hp
      subst hp
      exact absurd hc (by decide))
    rfl (by decide)
  exact ⟨h.1, h.2.1, h.2.2.2⟩

/-! ## Claim C8 -/

theorem listGetDMap (ops : List AddOp) (i : Nat) (h : i < ops.length) :
    (ops.map stored).getD i zeroProp = stored (ops.getD i default) := by
  induction ops generalizing i with
  | nil => simp at h
  | cons op rest ih =>
    cases i with
    | zero => rfl
    | succ n =>
      simp only [List.map_cons, List.getD_cons_succ]
      exact ih n (by simpa using h)

theorem insShape_slot_zero (ops : List AddOp) (s : NCproplist) (h : insShape ops s)
    (hlt : s.count < s.alloc) :
    s.properties.getD s.count zeroProp = zeroProp := by
  obtain ⟨hc, hle, hp⟩ := h
  rw [hp, hc]
  have hlen : (ops.map stored).length = ops.length := by simp
  have hget := listGetDAppendLen (ops.map stored)
    (List.replicate (s.alloc - ops.length) zeroProp) zeroProp
  rw [hlen] at hget
  rw [hget]
  cases hrep : s.alloc - ops.length with
  | zero => omega
  | succ k => simp [List.replicate_succ]

theorem insShape_set (ops : List AddOp) (s : NCproplist) (h : insShape ops s)
    (hlt : s.count < s.alloc) (e : NCPproperty) :
    s.properties.set s.count e
      = ops.map stored ++ e :: List.replicate (s.alloc - ops.length - 1) zeroProp := by
  obtain ⟨hc, hle, hp⟩ := h
  rw [hp, hc]
  have hmain := listSetAppendLen (ops.map stored)
    (List.replicate (s.alloc - ops.length) zeroProp) e
  have hlen : (ops.map stored).length = ops.length := by simp
  rw [hlen] at hmain
  rw [hmain]
  congr 1
  cases hrep : s.alloc - ops.length with
  | zero => omega
  | succ k =>
    rw [List.replicate_succ]
    simp only [List.set_cons_zero, Nat.add_sub_cancel]

theorem insShape_grow (ops : List AddOp) (s : NCproplist) (h : insShape ops s) :
    (if hasspace s 1 then ((NC_NOERR : Int), s)
     else extendplist true s ((s.count + 1) * EXPANDFACTOR)).1 = NC_NOERR ∧
    insShape ops (if hasspace s 1 then ((NC_NOERR : Int), s)
     else extendplist true s ((s.count + 1) * EXPANDFACTOR)).2 ∧
    (if hasspace s 1 then ((NC_NOERR : Int), s)
     else extendplist true s ((s.count + 1) * EXPANDFACTOR)).2.count
      < (if hasspace s 1 then ((NC_NOERR : Int), s)
     else extendplist true s ((s.count + 1) * EXPANDFACTOR)).2.alloc := by
  obtain ⟨hc, hle, hp⟩ := h
  cases hs : hasspace s 1 with
  | true =>
    rw [if_pos rfl]
    refine ⟨rfl, ⟨hc, hle, hp⟩, ?_⟩
    show s.count < s.alloc
    simp [hasspace] at hs
    omega
  | false =>
    have halloc : s.alloc = s.count := by
      simp [hasspace] at hs; omega
    have hlenp : s.properties.length = ops.length := by
      rw [hp]
      simp only [List.length_append, List.length_map, List.length_replicate]
      omega
    have hprops : s.properties = ops.map stored := by
      rw [hp]
      have hz : s.alloc - ops.length = 0 := by omega
      rw [hz]
      simp
    have hext : extendplist true s ((s.count + 1) * EXPANDFACTOR)
        = (NC_NOERR, { s with
            alloc := s.count + (s.count + 1),
            properties := s.properties ++
              List.replicate (s.count + (s.count + 1) - s.properties.length) zeroProp }) := by
      have hcond : ¬ (s.alloc ≥ s.count + (s.count + 1) * EXPANDFACTOR ∨
          (s.count + 1) * EXPANDFACTOR = 0) := by
        simp [EXPANDFACTOR, halloc]
      simp [extendplist, EXPANDFACTOR] at hcond ⊢
      omega
    rw [if_neg (by simp), hext]
    refine ⟨rfl, ⟨hc, by show ops.length ≤ s.count + (s.count + 1); omega, ?_⟩,
      by show s.count < s.count + (s.count + 1); omega⟩
    show s.properties ++
        List.replicate (s.count + (s.count + 1) - s.properties.length) zeroProp
      = ops.map stored ++ List.replicate (s.count + (s.count + 1) - ops.length) zeroProp
    rw [hprops]
    simp [List.length_map]

theorem insShape_write (ops : List AddOp) (op : AddOp) (t : NCproplist)
    (hsh : insShape ops t) (hlt : t.count < t.alloc) (e : NCPproperty)
    (he : e = stored op) :
    insShape (ops ++ [op])
      { t with properties := t.properties.set t.count e, count := t.count + 1 } := by
  obtain ⟨hc, hle, hp⟩ := hsh
  subst he
  refine ⟨?_, ?_, ?_⟩
  · show t.count + 1 = (ops ++ [op]).length
    simp [hc]
  · show (ops ++ [op]).length ≤ t.alloc
    simp only [List.length_append, List.length_singleton]
    omega
  · show t.properties.set t.count (stored op)
      = (ops ++ [op]).map stored ++ List.replicate (t.alloc - (ops ++ [op]).length) zeroProp
    rw [insShape_set ops t ⟨hc, hle, hp⟩ hlt (stored op)]
    rw [List.map_append, List.append_assoc]
    simp only [List.map_cons, List.map_nil, List.singleton_append, List.length_append,
      List.length_singleton]
    have hcount : t.alloc - ops.length - 1 = t.alloc - (ops.length + 1) := by omega
    rw [hcount]

theorem insShape_step (ops : List AddOp) (s : NCproplist) (op : AddOp) (h : insShape ops s) :
    addStat s op = NC_NOERR ∧ insShape (ops ++ [op]) (applyAdd s op) := by
  obtain ⟨hstat, hsh, hlt⟩ := insShape_grow ops s h
  cases op with
  | aconst k v =>
    simp only [addStat, applyAdd, ncproplistadd]
    set R := if hasspace s 1 then ((NC_NOERR : Int), s)
      else extendplist true s ((s.count + 1) * EXPANDFACTOR) with hR
    rw [if_neg (by rw [hstat, NC_NOERR]; simp)]
    refine ⟨rfl, ?_⟩
    rw [insShape_slot_zero ops R.2 hsh hlt]
    exact insShape_write ops _ R.2 hsh hlt _ rfl
  | abytes k v sz =>
    simp only [addStat, applyAdd, ncproplistaddbytes]
    set R := if hasspace s 1 then ((NC_NOERR : Int), s)
      else extendplist true s ((s.count + 1) * EXPANDFACTOR) with hR
    rw [if_neg (by rw [hstat, NC_NOERR]; simp)]
    refine ⟨rfl, ?_⟩
    rw [insShape_slot_zero ops R.2 hsh hlt]
    exact insShape_write ops _ R.2 hsh hlt _ rfl
  | astring k strp str =>
    simp only [addStat, applyAdd, ncproplistaddstring, ncproplistaddbytes]
    set R := if hasspace s 1 then ((NC_NOERR : Int), s)
      else extendplist true s ((s.count + 1) * EXPANDFACTOR) with hR
    rw [if_neg (by rw [hstat, NC_NOERR]; simp)]
    refine ⟨rfl, ?_⟩
    rw [insShape_slot_zero ops R.2 hsh hlt]
    exact insShape_write ops _ R.2 hsh hlt _ rfl
  | acomplex k v sz u f =>
    simp only [addStat, applyAdd, ncproplistaddx]
    set R := if hasspace s 1 then ((NC_NOERR : Int), s)
      else extendplist true s ((s.count + 1) * EXPANDFACTOR) with hR
    rw [if_neg (by rw [hstat, NC_NOERR]; simp)]
    refine ⟨rfl, ?_⟩
    exact insShape_write ops _ R.2 hsh hlt _ rfl

theorem insShape_reach (ops : List AddOp) : insShape ops (reachIns ops) := by
  have h0 : insShape [] freshlist := ⟨rfl, Nat.zero_le _, rfl⟩
  have key : ∀ (rest pre : List AddOp) (s : NCproplist), insShape pre s →
      insShape (pre ++ rest) (rest.foldl applyAdd s) := by
    intro rest
    induction rest with
    | nil =>
      intro pre s h
      simpa using h
    | cons op rest' ih =>
      intro pre s h
      have hnext := ih (pre ++ [op]) (applyAdd s op) (insShape_step pre s op h).2
      simpa [List.append_assoc] using hnext
  simpa using key ops [] freshlist h0

/-- Claim C8: after a sequence of `N` successful insertions of any kind
mix into a fresh list, `Length()` is `N` (each insertion indeed reports
`NC_NOERR`); `ncproplistith i` for `0 ≤ i < N` returns the key, value
and size of the `i`-th inserted entry as stored — insertion order is the
enumeration order — and for `i ≥ N` it fails with `NC_EINVAL`
(IndexOutOfRange) without writing the outputs. -/
theorem length_and_byindex_insertion_order :
    ∀ (ops : List AddOp),
      (reachIns ops).count = ops.length ∧
      ncproplistlen (reachIns ops) = ops.length ∧
      (∀ i, i < ops.length → addStat (reachIns (ops.take i)) (ops.getD i default) = NC_NOERR) ∧
      (∀ i, i < ops.length →
        ncproplistith (some (reachIns ops)) i
          = (NC_NOERR, some (stored (ops.getD i default)).pair.key,
             some (stored (ops.getD i default)).pair.value,
             some (stored (ops.getD i default)).pair.size)) ∧
      (∀ i, ops.length ≤ i →
        ncproplistith (some (reachIns ops)) i = (NC_EINVAL, none, none, none)) := by
  intro ops
  obtain ⟨hc, hle, hp⟩ := insShape_reach ops
  refine ⟨hc, hc, ?_, ?_, ?_⟩
  · intro i hi
    exact (insShape_step (ops.take i) (reachIns (ops.take i)) (ops.getD i default)
      (insShape_reach (ops.take i))).1
  · intro i hi
    have hige : ¬ i ≥ (reachIns ops).count := by omega
    simp only [ncproplistith]
    rw [if_neg hige]
    have hgd : (reachIns ops).properties.getD i zeroProp = stored (ops.getD i default) := by
      rw [hp]
      have hlt : i < (ops.map stored).length := by
        simp only [List.length_map]
        omega
      rw [listGetDAppendLt _ _ _ i hlt]
      exact listGetDMap ops i (by omega)
    rw [hgd]
  · intro i hi
    have hige : i ≥ (reachIns ops).count := by omega
    simp only [ncproplistith]
    rw [if_pos hige]

/-- Claim C8 witness: a three-insertion mix (const, bytes, complex) has
length 3, `ByIndex 1` returns the second inserted entry, and `ByIndex 3`
is IndexOutOfRange. -/
theorem length_and_byindex_insertion_order_witness :
    ncproplistlen (reachIns [.aconst ['a'] 5, .abytes ['b'] 9 4,
        .acomplex ['c'] 11 6 2 okRec]) = 3 ∧
    ncproplistith (some (reachIns [.aconst ['a'] 5, .abytes ['b'] 9 4,
        .acomplex ['c'] 11 6 2 okRec])) 1
      = (NC_NOERR, some ['b'], some 9, some 0) ∧
    ncproplistith (some (reachIns [.aconst ['a'] 5, .abytes ['b'] 9 4,
        .acomplex ['c'] 11 6 2 okRec])) 3
      = (NC_EINVAL, none, none, none) := by
  refine ⟨?_, ?_, ?_⟩
  · exact (length_and_byindex_insertion_order _).2.1
  · exact (length_and_byindex_insertion_order _).2.2.2.1 1 (by decide)
  · exact (length_and_byindex_insertion_order _).2.2.2.2 3 (by decide)

/-! ## Claim C9 -/

theorem extendplist_wfstep (ok : Bool) (s : NCproplist) (n : Nat) (h : wfplist s) :
    wfplist (extendplist ok s n).2 := by
  obtain ⟨hc, hl⟩ := h
  constructor
  · rw [extendplist_count]
    exact le_trans hc (extendplist_alloc_mono ok s n)
  · exact extendplist_length ok s n hl

theorem extendplist_success_fits (ok : Bool) (s : NCproplist) (n : Nat)
    (hok : (extendplist ok s n).1 = NC_NOERR) :
    n ≤ (extendplist ok s n).2.alloc ∨ n = 0 ∧ True := by
  simp only [extendplist] at hok ⊢
  split at hok
  · next hcond =>
    rw [if_pos hcond]
    rcases hcond with h1 | h1
    · left
      show n ≤ s.alloc
      omega
    · right
      exact ⟨h1, trivial⟩
  · next hcond =>
    rw [if_neg hcond]
    split at hok
    · next h2 =>
      rw [if_pos h2]
      left
      show n ≤ s.count + n
      omega
    · next h2 =>
      have hcon : (NC_ENOMEM : Int) = NC_NOERR := hok
      exact absurd hcon (by decide)

theorem clearpass_wf (s : NCproplist) (h : wfplist s) :
    wfplist (clearpass s).2.1 ∧ (clearpass s).2.1.alloc = s.alloc := by
  obtain ⟨hc, hl⟩ := h
  simp only [clearpass]
  split
  · exact ⟨⟨hc, hl⟩, rfl⟩
  · exact ⟨⟨Nat.zero_le _, hl⟩, rfl⟩

theorem ncproplistinit_wf (s : NCproplist) (h : wfplist s) :
    wfplist (ncproplistinit s).2.1 ∧ s.alloc ≤ (ncproplistinit s).2.1.alloc := by
  obtain ⟨hc, hl⟩ := h
  simp only [ncproplistinit]
  split
  · next hz =>
    refine ⟨⟨Nat.zero_le _, ?_⟩, ?_⟩
    · show (List.replicate MINPROPS zeroProp).length = MINPROPS
      simp
    · rw [hz]
      exact Nat.zero_le _
  · exact ⟨(clearpass_wf s ⟨hc, hl⟩).1, le_of_eq (clearpass_wf s ⟨hc, hl⟩).2.symm⟩

theorem growone_count (ok : Bool) (s : NCproplist) :
    (if hasspace s 1 then ((NC_NOERR : Int), s)
     else extendplist ok s ((s.count + 1) * EXPANDFACTOR)).2.count = s.count := by
  split
  · rfl
  · exact extendplist_count ok s ((s.count + 1) * EXPANDFACTOR)

theorem growone_alloc (ok : Bool) (s : NCproplist) :
    s.alloc ≤ (if hasspace s 1 then ((NC_NOERR : Int), s)
     else extendplist ok s ((s.count + 1) * EXPANDFACTOR)).2.alloc := by
  split
  · exact le_rfl
  · exact extendplist_alloc_mono ok s ((s.count + 1) * EXPANDFACTOR)

theorem growone_wf (ok : Bool) (s : NCproplist) (h : wfplist s) :
    wfplist (if hasspace s 1 then ((NC_NOERR : Int), s)
     else extendplist ok s ((s.count + 1) * EXPANDFACTOR)).2 := by
  split
  · exact h
  · exact extendplist_wfstep ok s ((s.count + 1) * EXPANDFACTOR) h

theorem growone_space (ok : Bool) (s : NCproplist)
    (hok : (if hasspace s 1 then ((NC_NOERR : Int), s)
      else extendplist ok s ((s.count + 1) * EXPANDFACTOR)).1 = NC_NOERR) :
    (if hasspace s 1 then ((NC_NOERR : Int), s)
      else extendplist ok s ((s.count + 1) * EXPANDFACTOR)).2.count + 1
    ≤ (if hasspace s 1 then ((NC_NOERR : Int), s)
      else extendplist ok s ((s.count + 1) * EXPANDFACTOR)).2.alloc := by
  cases hsp : hasspace s 1 with
  | true =>
    rw [if_pos rfl]
    show s.count + 1 ≤ s.alloc
    simp [hasspace] at hsp
    omega
  | false =>
    rw [if_neg (by simp [hsp])] at hok
    rw [if_neg (by simp)]
    rw [extendplist_count]
    rcases extendplist_success_fits ok s ((s.count + 1) * EXPANDFACTOR) hok with hfits | ⟨hz, -⟩
    · simp only [EXPANDFACTOR] at hfits ⊢
      omega
    · simp [EXPANDFACTOR] at hz

theorem applyPOp_wf (s : NCproplist) (op : POp) (h : wfplist s) :
    wfplist (applyPOp s op) ∧ s.alloc ≤ (applyPOp s op).alloc := by
  obtain ⟨hc, hl⟩ := h
  cases op with
  | padd ok k v =>
    simp only [applyPOp, ncproplistadd]
    set R := if hasspace s 1 then ((NC_NOERR : Int), s)
      else extendplist ok s ((s.count + 1) * EXPANDFACTOR) with hR
    have hwf2 := growone_wf ok s ⟨hc, hl⟩
    have hmono := growone_alloc ok s
    rw [← hR] at hwf2 hmono
    by_cases hr : R.1 ≠ 0
    · rw [if_pos hr]
      dsimp only
      exact ⟨hwf2, hmono⟩
    · rw [if_neg hr]
      push_neg at hr
      have hspace := growone_space ok s (by rw [← hR]; exact hr)
      rw [← hR] at hspace
      dsimp only
      refine ⟨⟨hspace, ?_⟩, hmono⟩
      show (R.2.properties.set R.2.count _).length = R.2.alloc
      rw [List.length_set]
      exact hwf2.2
  | paddbytes ok k v sz =>
    simp only [applyPOp, ncproplistaddbytes]
    set R := if hasspace s 1 then ((NC_NOERR : Int), s)
      else extendplist ok s ((s.count + 1) * EXPANDFACTOR) with hR
    have hwf2 := growone_wf ok s ⟨hc, hl⟩
    have hmono := growone_alloc ok s
    rw [← hR] at hwf2 hmono
    by_cases hr : R.1 ≠ 0
    · rw [if_pos hr]
      dsimp only
      exact ⟨hwf2, hmono⟩
    · rw [if_neg hr]
      push_neg at hr
      have hspace := growone_space ok s (by rw [← hR]; exact hr)
      rw [← hR] at hspace
      dsimp only
      refine ⟨⟨hspace, ?_⟩, hmono⟩
      show (R.2.properties.set R.2.count _).length = R.2.alloc
      rw [List.length_set]
      exact hwf2.2
  | paddstring ok k strp str =>
    simp only [applyPOp, ncproplistaddstring, ncproplistaddbytes]
    set R := if hasspace s 1 then ((NC_NOERR : Int), s)
      else extendplist ok s ((s.count + 1) * EXPANDFACTOR) with hR
    have hwf2 := growone_wf ok s ⟨hc, hl⟩
    have hmono := growone_alloc ok s
    rw [← hR] at hwf2 hmono
    by_cases hr : R.1 ≠ 0
    · rw [if_pos hr]
      dsimp only
      exact ⟨hwf2, hmono⟩
    · rw [if_neg hr]
      push_neg at hr
      have hspace := growone_space ok s (by rw [← hR]; exact hr)
      rw [← hR] at hspace
      dsimp only
      refine ⟨⟨hspace, ?_⟩, hmono⟩
      show (R.2.properties.set R.2.count _).length = R.2.alloc
      rw [List.length_set]
      exact hwf2.2
  | paddx ok k v sz u f =>
    simp only [applyPOp, ncproplistaddx]
    set R := if hasspace s 1 then ((NC_NOERR : Int), s)
      else extendplist ok s ((s.count + 1) * EXPANDFACTOR) with hR
    have hwf2 := growone_wf ok s ⟨hc, hl⟩
    have hmono := growone_alloc ok s
    rw [← hR] at hwf2 hmono
    by_cases hr : R.1 ≠ 0
    · rw [if_pos hr]
      dsimp only
      exact ⟨hwf2, hmono⟩
    · rw [if_neg hr]
      push_neg at hr
      have hspace := growone_space ok s (by rw [← hR]; exact hr)
      rw [← hR] at hspace
      dsimp only
      refine ⟨⟨hspace, ?_⟩, hmono⟩
      show (R.2.properties.set R.2.count _).length = R.2.alloc
      rw [List.length_set]
      exact hwf2.2
  | pclear =>
    have h2 := clearpass_wf s ⟨hc, hl⟩
    exact ⟨h2.1, le_of_eq h2.2.symm⟩
  | pclonefrom ok malloc src =>
    simp only [applyPOp, ncproplistclone]
    set R1 := ncproplistinit s with hR1
    have hinit := ncproplistinit_wf s ⟨hc, hl⟩
    rw [← hR1] at hinit
    obtain ⟨hwf1, hm1⟩ := hinit
    by_cases h1 : R1.1 ≠ 0
    · rw [if_pos h1]
      dsimp only
      exact ⟨hwf1, hm1⟩
    · rw [if_neg h1]
      set R2 := extendplist ok R1.2.1 src.count with hR2
      have hwf2 : wfplist R2.2 := by
        rw [hR2]
        exact extendplist_wfstep ok R1.2.1 src.count hwf1
      have hm2 : R1.2.1.alloc ≤ R2.2.alloc := by
        rw [hR2]
        exact extendplist_alloc_mono ok R1.2.1 src.count
      by_cases h2 : R2.1 ≠ 0
      · rw [if_pos h2]
        dsimp only
        exact ⟨hwf2, le_trans hm1 hm2⟩
      · rw [if_neg h2]
        push_neg at h2
        obtain ⟨hlc, hla, hll⟩ :=
          cloneloop_preserves malloc (src.properties.take src.count) R2.2 0 0 0
        by_cases h3 : (cloneloop malloc (src.properties.take src.count) R2.2 0 0 0).1 < 0
        · rw [if_pos h3]
          dsimp only
          simp only [Option.getD_some]
          refine ⟨⟨?_, ?_⟩, ?_⟩
          · rw [hlc, hla]
            exact hwf2.1
          · rw [hll, hla]
            exact hwf2.2
          · rw [hla]
            exact le_trans hm1 hm2
        · rw [if_neg h3]
          dsimp only
          simp only [Option.getD_some]
          have hfits := extendplist_success_fits ok R1.2.1 src.count (by rw [← hR2]; exact h2)
          rw [← hR2] at hfits
          refine ⟨⟨?_, ?_⟩, ?_⟩
          · show src.count ≤ (cloneloop malloc (src.properties.take src.count) R2.2 0 0 0).2.1.alloc
            rw [hla]
            rcases hfits with hf | ⟨hz, -⟩
            · exact hf
            · rw [hz]
              exact Nat.zero_le _
          · show (cloneloop malloc (src.properties.take src.count)
                R2.2 0 0 0).2.1.properties.length
              = (cloneloop malloc (src.properties.take src.count) R2.2 0 0 0).2.1.alloc
            rw [hll, hla]
            exact hwf2.2
          · show s.alloc ≤ (cloneloop malloc (src.properties.take src.count) R2.2 0 0 0).2.1.alloc
            rw [hla]
            exact le_trans hm1 hm2

/-- Claim C9: starting from a fresh list, after any sequence of
operations (insertions with arbitrary allocation outcomes, clears, and
being the destination of clones from arbitrary sources) the invariant
`count ≤ alloc` holds (together with the slot array having exactly
`alloc` slots), and the capacity never shrinks across any single
operation.  (Destroy either deallocates the list outright or — when a
reclaim callback fails — leaves it exactly as the embedded clear pass
does, which is covered by the `pclear` operation.) -/
theorem reachable_wf_and_capacity_monotone :
    ∀ (ops : List POp),
      wfplist (reachP ops) ∧
      ∀ (op : POp), (reachP ops).alloc ≤ (reachP (ops ++ [op])).alloc := by
  have hbase : wfplist freshlist := ⟨Nat.zero_le _, rfl⟩
  have key : ∀ (ops : List POp) (s : NCproplist), wfplist s →
      wfplist (ops.foldl applyPOp s) := by
    intro ops
    induction ops with
    | nil => intro s h; simpa using h
    | cons op rest ih =>
      intro s h
      simpa using ih (applyPOp s op) (applyPOp_wf s op h).1
  intro ops
  refine ⟨key ops freshlist hbase, ?_⟩
  intro op
  have hstep := applyPOp_wf (reachP ops) op (key ops freshlist hbase)
  have hfold : reachP (ops ++ [op]) = applyPOp (reachP ops) op := by
    simp [reachP, List.foldl_append]
  rw [hfold]
  exact hstep.2
